import Mathlib

/-!
Shallow embedding of the sampling primitives and the monitoring-callback
framework of the `mixturs` repository (files `src/utils/sampling.rs` and
`src/callback.rs`), together with theorems settling the specification
claims about them.

The random number generator is modelled as a pair of infinite streams (one
of naturals, one of rationals) with a position counter; every call to
`gen_range` consumes one stream element.  `gen_range(lo..hi)` on an empty
range panics in Rust; the embedding returns `none` (a trap) in that case,
so every function that may panic returns an `Option`.
-/

/-- Model of a `rand::Rng` value: two value streams and a position counter.
Each draw reads the stream at the current position and advances the
counter. -/
structure Rng where
  nats : Nat → Nat
  reals : Nat → Rat
  k : Nat

/-- Advance the generator by one draw. -/
def Rng.next (r : Rng) : Rng :=
  ⟨r.nats, r.reals, r.k + 1⟩

/-- Model of `rng.gen_range(0..hi)` for `usize`: `none` models the Rust
panic on an empty range (`hi = 0`); otherwise an arbitrary-but-determined
value `< hi` is produced from the stream. -/
def genNat (hi : Nat) (r : Rng) : Option (Nat × Rng) :=
  if hi = 0 then none else some (r.nats r.k % hi, r.next)

/-- Model of `rng.gen_range(W::zero()..hi)` for a real-valued weight type:
`none` models the Rust panic on an empty range (`hi ≤ 0`); otherwise a
value in `[0, hi)` is produced from the stream (`Int.fract` maps the
stream value into `[0, 1)`). -/
def genQ (hi : Rat) (r : Rng) : Option (Rat × Rng) :=
  if hi ≤ 0 then none else some (hi * Int.fract (r.reals r.k), r.next)

/-! ## `reservoir_sampling` (src/utils/sampling.rs lines 28-48)

The Rust function first copies items into `dst` via
`dst.iter_mut().zip(src.by_ref())` (consuming `min |src| |dst|` items),
then, with `i` starting at the number `n` of filled slots, for every
remaining item draws `j = rng.gen_range(0..i)` and overwrites `dst[j]`
when `j < dst.len()`, incrementing `i` after each item. -/

/-- State of `dst` after the initial fill loop of `reservoir_sampling`:
the first `min |src| |dst|` slots hold the corresponding source items, the
rest keep their prior contents. -/
def resFill (src dst : List α) : List α :=
  src.take dst.length ++ dst.drop (min src.length dst.length)

/-- The replacement loop of `reservoir_sampling`: for each remaining
source item draw `j` from `[0, i)` (trapping when that range is empty) and
overwrite slot `j` when `j < dst.length`. -/
def resLoop (rng : Rng) (rest dst : List α) (i : Nat) : Option (List α × Rng) :=
  match rest with
  | [] => some (dst, rng)
  | v :: tl =>
    match genNat i rng with
    | none => none
    | some (j, rng1) =>
      resLoop rng1 tl (if j < dst.length then dst.set j v else dst) (i + 1)

/-- Embedding of `reservoir_sampling`: returns the final destination, the
number of filled slots and the final generator, or `none` when the Rust
code would panic on an empty draw range. -/
def reservoir_sampling (rng : Rng) (src dst : List α) : Option (List α × Nat × Rng) :=
  let n := min src.length dst.length
  match resLoop rng (src.drop n) (resFill src dst) n with
  | none => none
  | some (d, r) => some (d, n, r)

/-! ## `reservoir_sampling_weighted` (src/utils/sampling.rs lines 73-103)

The Rust function fills `dst[t] = t` for the first `min |src| |dst|`
weights while accumulating `w_sum`; then for each remaining weight `w` it
adds `w` to `w_sum`, draws `j = rng.gen_range(W::zero()..w_sum)` (panic
when the range is empty, i.e. `w_sum ≤ 0`), and when `j < w` overwrites
the slot `rng.gen_range(0..dst.len())` (panic when `dst` is empty) with
the item's index `i`. -/

/-- The replacement loop of `reservoir_sampling_weighted`. -/
def reswLoop (rng : Rng) (rest : List Rat) (dst : List Nat) (i : Nat) (w_sum : Rat) :
    Option (List Nat × Rng) :=
  match rest with
  | [] => some (dst, rng)
  | w :: tl =>
    let ws := w_sum + w
    match genQ ws rng with
    | none => none
    | some (j, rng1) =>
      if j < w then
        match genNat dst.length rng1 with
        | none => none
        | some (s, rng2) => reswLoop rng2 tl (dst.set s i) (i + 1) ws
      else
        reswLoop rng1 tl dst (i + 1) ws

/-- Embedding of `reservoir_sampling_weighted`. -/
def reservoir_sampling_weighted (rng : Rng) (src : List Rat) (dst : List Nat) :
    Option (List Nat × Nat × Rng) :=
  let n := min src.length dst.length
  match reswLoop rng (src.drop n) (List.range n ++ dst.drop n) n ((src.take n).sum) with
  | none => none
  | some (d, r) => some (d, n, r)

/-- A concrete generator used for witnesses and counterexamples. -/
def rng0 : Rng := ⟨fun _ => 0, fun _ => 0, 0⟩

/-! ## Basic lemmas about the samplers -/

lemma resLoop_length {rest dst : List α} {i : Nat} {rng : Rng} {d : List α} {r : Rng}
    (h : resLoop rng rest dst i = some (d, r)) : d.length = dst.length := by
  induction rest generalizing dst i rng with
  | nil =>
    simp only [resLoop, Option.some.injEq, Prod.mk.injEq] at h
    rw [h.1]
  | cons v tl ih =>
    rw [resLoop] at h
    split at h
    · exact absurd h (by simp)
    · rename_i j rng1 heq
      have hlen := ih h
      by_cases hj : j < dst.length <;> simpa [hj] using hlen

lemma reservoir_sampling_short {rng : Rng} {src dst : List α}
    (h : src.length < dst.length) :
    reservoir_sampling rng src dst = some (src ++ dst.drop src.length, src.length, rng) := by
  have hn : min src.length dst.length = src.length := min_eq_left h.le
  have hfill : resFill src dst = src ++ dst.drop src.length := by
    unfold resFill
    rw [hn, List.take_of_length_le h.le]
  simp only [reservoir_sampling, hn, hfill, List.drop_length, resLoop]

lemma reservoir_sampling_weighted_short {rng : Rng} {src : List Rat} {dst : List Nat}
    (h : src.length < dst.length) :
    reservoir_sampling_weighted rng src dst =
      some (List.range src.length ++ dst.drop src.length, src.length, rng) := by
  have hn : min src.length dst.length = src.length := min_eq_left h.le
  simp only [reservoir_sampling_weighted, hn, List.drop_length, reswLoop]

lemma reservoir_sampling_empty_dst {rng : Rng} {src : List α} (h : src ≠ []) :
    reservoir_sampling rng src ([] : List α) = none := by
  match src with
  | [] => exact absurd rfl h
  | v :: tl =>
    simp [reservoir_sampling, resFill, resLoop, genNat, Nat.mod_one]

lemma reservoir_sampling_weighted_empty_dst {rng : Rng} {src : List Rat} (h : src ≠ []) :
    reservoir_sampling_weighted rng src ([] : List Nat) = none := by
  match src with
  | [] => exact absurd rfl h
  | w :: tl =>
    simp only [reservoir_sampling_weighted, List.length_nil, Nat.min_zero, List.drop_zero,
      List.range_zero, List.take_zero, List.sum_nil, List.nil_append, reswLoop, genQ, zero_add]
    by_cases hw : w ≤ 0
    · rw [if_pos hw]
    · rw [if_neg hw]
      have hwpos : 0 < w := lt_of_not_le hw
      have hfr : w * Int.fract (rng.reals rng.k) < w := by
        have h1 : Int.fract (rng.reals rng.k) < 1 := Int.fract_lt_one _
        calc w * Int.fract (rng.reals rng.k) < w * 1 :=
              (mul_lt_mul_left hwpos).mpr h1
          _ = w := mul_one w
      simp [hfr, genNat]

lemma reservoir_sampling_weighted_zero_prefix {rng : Rng} {src : List Rat} {dst : List Nat}
    (hlen : dst.length < src.length)
    (hz : ∀ w ∈ src.take (dst.length + 1), w = 0) :
    reservoir_sampling_weighted rng src dst = none := by
  have hn : min src.length dst.length = dst.length := min_eq_right hlen.le
  have hsum : ((src.take dst.length).sum : Rat) = 0 := by
    apply List.sum_eq_zero
    intro w hw
    apply hz
    have : src.take dst.length = (src.take (dst.length + 1)).take dst.length := by
      rw [List.take_take, min_eq_left (Nat.le_succ _)]
    rw [this] at hw
    exact List.take_subset _ _ hw
  have hdrop : src.drop dst.length = src[dst.length] :: src.drop (dst.length + 1) :=
    List.drop_eq_getElem_cons hlen
  have hget : src[dst.length] = 0 := by
    apply hz
    have htake : src.take (dst.length + 1) = src.take dst.length ++ [src[dst.length]] := by
      rw [List.take_succ, List.getElem?_eq_getElem hlen]
      rfl
    rw [htake]
    exact List.mem_append_right _ (List.mem_singleton_self _)
  simp only [reservoir_sampling_weighted, hn, hdrop, hget, hsum, reswLoop, genQ, add_zero,
    le_refl, if_pos]

/-- C1: counter to the claimed inclusive draw range.  In the replacement
phase the code draws `j` from the half-open range `[0, i)` where `i`
equals the item's 0-indexed position (the counter is incremented only
after the draw), so for the source `[10, 20]` with `k = 1` the draw for
the item at position 1 ranges over `[0, 1)` and always yields `j = 0 < k`:
the second item deterministically overwrites the reservoir, for every
generator, where Algorithm R would keep each item with probability 1/2. -/
theorem reservoir_sampling_first_tail_item_always_selected (rng : Rng) :
    reservoir_sampling rng [10, 20] [0] = some ([20], 1, rng.next) := by
  simp [reservoir_sampling, resFill, resLoop, genNat, Nat.mod_one]

/-- C2 counterexample: with a destination of length zero and a non-empty
source, neither sampler succeeds with zero filled slots; both trap
(`reservoir_sampling` draws from the empty range `[0, 0)`, and
`reservoir_sampling_weighted` draws a slot from an empty destination). -/
theorem zero_dst_nonempty_source_traps :
    reservoir_sampling rng0 [(1 : Int)] ([] : List Int) = none ∧
    reservoir_sampling_weighted rng0 [1] ([] : List Nat) = none :=
  ⟨reservoir_sampling_empty_dst (by simp),
   reservoir_sampling_weighted_empty_dst (by simp)⟩

/-- C2 (amended): with a destination of length zero both samplers return
zero filled slots when the source is also empty, but with a non-empty
source both trap on an empty-range draw instead of succeeding. -/
theorem reservoir_sampling_zero_dst (rng : Rng) (src : List α) (ws : List Rat) :
    reservoir_sampling rng ([] : List α) ([] : List α) = some ([], 0, rng) ∧
    reservoir_sampling_weighted rng ([] : List Rat) ([] : List Nat) = some ([], 0, rng) ∧
    (src ≠ [] → reservoir_sampling rng src ([] : List α) = none) ∧
    (ws ≠ [] → reservoir_sampling_weighted rng ws ([] : List Nat) = none) :=
  ⟨rfl, rfl, fun h => reservoir_sampling_empty_dst h,
   fun h => reservoir_sampling_weighted_empty_dst h⟩

/-- C2 witness: the amended statement applied at concrete inputs. -/
theorem reservoir_sampling_zero_dst_witness :
    reservoir_sampling rng0 ([] : List Int) ([] : List Int) = some ([], 0, rng0) ∧
    reservoir_sampling rng0 [(1 : Int)] ([] : List Int) = none ∧
    reservoir_sampling_weighted rng0 [1] ([] : List Nat) = none :=
  ⟨(reservoir_sampling_zero_dst rng0 [(1 : Int)] [1]).1,
   (reservoir_sampling_zero_dst rng0 [(1 : Int)] [1]).2.2.1 (by simp),
   (reservoir_sampling_zero_dst rng0 [(1 : Int)] [1]).2.2.2 (by simp)⟩

/-- C3 counterexample: a weight stream of two zero weights with a
destination of length one makes `reservoir_sampling_weighted` trap (the
uniform draw over `[0, w_sum)` with `w_sum = 0` is an empty range and no
guard skips it), refuting the claim that the function does not trap. -/
theorem zero_weight_prefix_traps :
    reservoir_sampling_weighted rng0 [0, 0] [0] = none := by
  simp [reservoir_sampling_weighted, reswLoop, genQ]

/-- C3 (amended): for every weight stream longer than the destination
whose processed prefix sums to zero (all weights seen up to and including
the first post-fill item are zero), `reservoir_sampling_weighted` traps:
the uniform draw over `[0, w_sum)` with `w_sum = 0` is an empty range and
is not guarded, so the call panics instead of skipping. -/
theorem reservoir_sampling_weighted_zero_weight_trap (rng : Rng) (ws : List Rat)
    (dst : List Nat) (hlen : dst.length < ws.length)
    (hz : ∀ w ∈ ws.take (dst.length + 1), w = 0) :
    reservoir_sampling_weighted rng ws dst = none :=
  reservoir_sampling_weighted_zero_prefix hlen hz

/-- C3 witness: the amended statement applied at a concrete input. -/
theorem reservoir_sampling_weighted_zero_weight_trap_witness :
    reservoir_sampling_weighted rng0 [0, 0, 1] [0] = none :=
  reservoir_sampling_weighted_zero_weight_trap rng0 [0, 0, 1] [0] (by simp)
    (by intro w hw; simpa using hw)

/-- C5: short-source completeness.  When the source is strictly shorter
than the destination, both samplers return exactly the source length, the
unweighted sampler's first `n` slots hold the full source, and the
weighted sampler's first `n` slots hold the indices `0..n-1`. -/
theorem short_source_completeness (rng : Rng) (src : List α) (ws : List Rat)
    (dstA : List α) (dstB : List Nat)
    (hA : src.length < dstA.length) (hB : ws.length < dstB.length) :
    ∃ dA rA dB rB,
      reservoir_sampling rng src dstA = some (dA, src.length, rA) ∧
      dA.take src.length = src ∧
      reservoir_sampling_weighted rng ws dstB = some (dB, ws.length, rB) ∧
      dB.take ws.length = List.range ws.length := by
  refine ⟨_, _, _, _, reservoir_sampling_short hA, ?_,
    reservoir_sampling_weighted_short hB, ?_⟩
  · exact List.take_left src _
  · have h := List.take_left (List.range ws.length) (dstB.drop ws.length)
    rwa [List.length_range] at h

/-- C5 witness: the theorem applied at concrete inputs. -/
theorem short_source_completeness_witness :
    ∃ dA rA dB rB,
      reservoir_sampling rng0 [(5 : Int)] [1, 2] = some (dA, 1, rA) ∧
      dA.take 1 = [5] ∧
      reservoir_sampling_weighted rng0 [1] [7, 8] = some (dB, 1, rB) ∧
      dB.take 1 = List.range 1 :=
  short_source_completeness rng0 [(5 : Int)] [1] [1, 2] [7, 8] (by decide) (by decide)

/-- C10: frame effect for short sources.  When the source is strictly
shorter than the destination, both samplers leave every slot at an index
at or beyond the returned count exactly as it was (`dst.drop n` is
preserved), and the generator is returned untouched: the result is a
deterministic function of the source alone. -/
theorem short_source_frame_and_rng_untouched (rng : Rng) (src : List α) (ws : List Rat)
    (dstA : List α) (dstB : List Nat)
    (hA : src.length < dstA.length) (hB : ws.length < dstB.length) :
    reservoir_sampling rng src dstA = some (src ++ dstA.drop src.length, src.length, rng) ∧
    reservoir_sampling_weighted rng ws dstB =
      some (List.range ws.length ++ dstB.drop ws.length, ws.length, rng) :=
  ⟨reservoir_sampling_short hA, reservoir_sampling_weighted_short hB⟩

/-- C10 witness: the theorem applied at concrete inputs. -/
theorem short_source_frame_and_rng_untouched_witness :
    reservoir_sampling rng0 [(5 : Int)] [1, 2, 3] = some ([5, 2, 3], 1, rng0) ∧
    reservoir_sampling_weighted rng0 [1] [7, 8] = some ([0, 8], 1, rng0) :=
  short_source_frame_and_rng_untouched rng0 [(5 : Int)] [1] [1, 2, 3] [7, 8]
    (by decide) (by decide)

/-! ## `replacement_sampling_weighted` (src/utils/sampling.rs lines 122-134)

The Rust function builds `WeightedIndex::new(src).unwrap()` and fills each
destination slot with an independent draw from the resulting categorical
distribution.  `WeightedIndex` comes from the external `rand` crate (not
part of this repository's sources), so its construction-failure conditions
are modelled from the spec.  Weights are modelled by `FloatW`, which
distinguishes the non-finite values the spec talks about. -/

/-- A floating-point weight: NaN, one of the two infinities, or a finite
value (modelled as a rational). -/
inductive FloatW where
  | nan : FloatW
  | posInf : FloatW
  | negInf : FloatW
  | finite (q : Rat) : FloatW
deriving DecidableEq

/-- The weight is negative (finite negative or negative infinity). -/
def FloatW.IsNegative : FloatW → Prop
  | negInf => True
  | finite q => q < 0
  | _ => False

/-- The weight is not a finite number. -/
def FloatW.IsNonFinite : FloatW → Prop
  | finite _ => False
  | _ => True

/-- The weight is an acceptable distribution weight: finite and
non-negative. -/
def FloatW.validWeight : FloatW → Bool
  | finite q => decide (0 ≤ q)
  | _ => false

/-- The weight is exactly zero. -/
def FloatW.isZero : FloatW → Bool
  | finite q => decide (q = 0)
  | _ => false

/-- Numeric value of a weight (only used once all weights are known to be
finite). -/
def FloatW.toQ : FloatW → Rat
  | finite q => q
  | _ => 0

/-- Modelled from the spec: `rand::distributions::WeightedIndex::new`
(external `rand` crate, not under this repository's sources) fails with a
distribution-construction error exactly when the weight stream is empty,
all-zero, or contains a negative or non-finite weight ("weights must sum
to a positive, finite value; empty or degenerate input fails"). -/
def weightedIndexFails (ws : List FloatW) : Bool :=
  ws.isEmpty || !(ws.all FloatW.validWeight) || ws.all FloatW.isZero

/-- Modelled from the spec: a draw from the categorical distribution over
`qs` given a uniform value `x` in `[0, total)`: the index is the number of
cumulative prefix sums (over the first `|qs| - 1` weights) not exceeding
`x`, hence always `< |qs|`. -/
def catIndex (qs : List Rat) (x : Rat) : Nat :=
  ((List.range (qs.length - 1)).filter (fun j => decide ((qs.take (j + 1)).sum ≤ x))).length

/-- The fill loop of `replacement_sampling_weighted`: one independent draw
per destination slot. -/
def repLoop (rng : Rng) (qs : List Rat) (total : Rat) (dst : List Nat) : List Nat × Rng :=
  match dst with
  | [] => ([], rng)
  | _ :: tl =>
    let r := repLoop rng.next qs total tl
    (catIndex qs (total * Int.fract (rng.reals rng.k)) :: r.1, r.2)

/-- Embedding of `replacement_sampling_weighted`: `none` models the
`unwrap` panic on a distribution-construction error. -/
def replacement_sampling_weighted (rng : Rng) (src : List FloatW) (dst : List Nat) :
    Option (List Nat × Rng) :=
  if weightedIndexFails src then none
  else some (repLoop rng (src.map FloatW.toQ) ((src.map FloatW.toQ).sum) dst)

lemma validWeight_false_iff (w : FloatW) :
    w.validWeight = false ↔ (w.IsNegative ∨ w.IsNonFinite) := by
  cases w <;> simp [FloatW.validWeight, FloatW.IsNegative, FloatW.IsNonFinite, not_le]

lemma isZero_iff (w : FloatW) : w.isZero = true ↔ w = FloatW.finite 0 := by
  cases w <;> simp [FloatW.isZero]

lemma weightedIndexFails_iff (src : List FloatW) :
    weightedIndexFails src = true ↔
      (src = [] ∨ (∀ w ∈ src, w = FloatW.finite 0) ∨
        ∃ w ∈ src, w.IsNegative ∨ w.IsNonFinite) := by
  have h1 : (src.isEmpty = true) ↔ src = [] := by simp [List.isEmpty_iff]
  have h2 : (src.all FloatW.isZero = true) ↔ ∀ w ∈ src, w = FloatW.finite 0 := by
    simp [List.all_eq_true, isZero_iff]
  have h3 : ((!src.all FloatW.validWeight) = true) ↔
      ∃ w ∈ src, w.IsNegative ∨ w.IsNonFinite := by
    rw [Bool.not_eq_true', List.all_eq_false]
    constructor
    · rintro ⟨w, hw, hval⟩
      exact ⟨w, hw, (validWeight_false_iff w).mp (Bool.not_eq_true _ ▸ hval)⟩
    · rintro ⟨w, hw, hval⟩
      exact ⟨w, hw, by rw [(validWeight_false_iff w).mpr hval]; simp⟩
  rw [weightedIndexFails, Bool.or_eq_true, Bool.or_eq_true, h1, h2, h3]
  constructor
  · rintro ((h | h) | h)
    · exact Or.inl h
    · exact Or.inr (Or.inr h)
    · exact Or.inr (Or.inl h)
  · rintro (h | h | h)
    · exact Or.inl (Or.inl h)
    · exact Or.inr h
    · exact Or.inl (Or.inr h)

lemma catIndex_lt {qs : List Rat} (h : qs ≠ []) (x : Rat) : catIndex qs x < qs.length := by
  have hle := List.length_filter_le
    (fun j => decide ((qs.take (j + 1)).sum ≤ x)) (List.range (qs.length - 1))
  rw [List.length_range] at hle
  have hpos : 0 < qs.length := List.length_pos.mpr h
  unfold catIndex
  omega

lemma repLoop_mem {qs : List Rat} (h : qs ≠ []) (total : Rat) :
    ∀ (rng : Rng) (dst : List Nat), ∀ j ∈ (repLoop rng qs total dst).1, j < qs.length := by
  intro rng dst
  induction dst generalizing rng with
  | nil => simp [repLoop]
  | cons a tl ih =>
    intro j hj
    simp only [repLoop] at hj
    rcases List.mem_cons.mp hj with h1 | h1
    · rw [h1]; exact catIndex_lt h _
    · exact ih _ _ h1

/-- C4: `replacement_sampling_weighted` fails with a
distribution-construction error exactly when the weight stream is empty,
all-zero, or contains a negative or non-finite weight; on success every
destination slot holds an index in `[0, stream_length)`. -/
theorem replacement_sampling_error_iff_and_bounds (rng : Rng) (src : List FloatW)
    (dst : List Nat) :
    (replacement_sampling_weighted rng src dst = none ↔
      (src = [] ∨ (∀ w ∈ src, w = FloatW.finite 0) ∨
        ∃ w ∈ src, w.IsNegative ∨ w.IsNonFinite)) ∧
    (∀ out rngf, replacement_sampling_weighted rng src dst = some (out, rngf) →
      ∀ j ∈ out, j < src.length) := by
  constructor
  · rw [← weightedIndexFails_iff]
    unfold replacement_sampling_weighted
    by_cases hf : weightedIndexFails src = true
    · simp [hf]
    · simp [hf]
  · intro out rngf hsome j hj
    unfold replacement_sampling_weighted at hsome
    by_cases hf : weightedIndexFails src = true
    · rw [if_pos hf] at hsome
      exact absurd hsome (by simp)
    · rw [if_neg hf] at hsome
      have hne : src ≠ [] := by
        intro hempty
        apply hf
        rw [hempty]
        rfl
      have hqne : src.map FloatW.toQ ≠ [] := by
        simpa using hne
      have := repLoop_mem hqne ((src.map FloatW.toQ).sum) rng dst j
      rw [Option.some_inj.mp hsome] at this
      have hlt := this hj
      rwa [List.length_map] at hlt

/-- C4 witness: the theorem applied at concrete inputs: a NaN weight makes
the call fail, and with the valid stream `[1.0]` every drawn index is
below the stream length 1. -/
theorem replacement_sampling_error_iff_and_bounds_witness :
    replacement_sampling_weighted rng0 [FloatW.nan] [0] = none ∧
    (∀ j ∈ ([0] : List Nat), j < 1) :=
  ⟨(replacement_sampling_error_iff_and_bounds rng0 [FloatW.nan] [0]).1.mpr
      (Or.inr (Or.inr ⟨FloatW.nan, by simp, Or.inr trivial⟩)),
   (replacement_sampling_error_iff_and_bounds rng0 [FloatW.finite 1] [0]).2 [0] rng0.next
      (by simp [replacement_sampling_weighted, weightedIndexFails, FloatW.validWeight,
        FloatW.isZero, FloatW.toQ, repLoop, catIndex])⟩

/-! ## `EvalData::from_sample` (src/callback.rs lines 40-80)

The point set is a dense matrix stored as a list of columns (column-major
semantics, each column one observation).  `from_sample` seeds its own
`SmallRng` with the constant 42, reservoir-samples up to `max_points`
column indices from `0..ncols`, and materializes the selected columns (and
aligned labels).  `SmallRng` comes from the external `rand` crate, so its
stream is modelled as a fixed concrete sequence determined by the seed;
no claim below depends on the stream's actual values. -/

/-- A dense matrix stored by columns. -/
structure Mat where
  nrows : Nat
  cols : List (List Rat)

/-- Number of columns (observations). -/
def Mat.ncols (m : Mat) : Nat := m.cols.length

/-- Embedding of nalgebra's `select_columns`. -/
def Mat.selectColumns (m : Mat) (idx : List Nat) : Mat :=
  ⟨m.nrows, idx.map (fun i => m.cols.getD i [])⟩

/-- Embedding of `select_columns` on a label row vector. -/
def selectLabelColumns (l : List Nat) (idx : List Nat) : List Nat :=
  idx.map (fun i => l.getD i 0)

/-- Evaluation data: an owned subsample of the point set, with aligned
labels when present. -/
structure EvalData where
  points : Mat
  labels : Option (List Nat)

/-- Modelled from the spec: `SmallRng::seed_from_u64(42)` (external `rand`
crate) is a seeded, reproducible random source, not a time-based one: a
fixed stream fully determined by the constant seed 42. -/
def smallRng42 : Rng :=
  ⟨fun k => (1103515245 * (k + 42) + 12345) % 2147483648,
   fun k => (((1103515245 * (k + 42) + 12345) % 2147483648 : Nat) : Rat) / 2147483648,
   0⟩

/-- Embedding of `EvalData::from_sample`.  The parameter `extRng` models
whatever external random-generator state exists at the call site; the
function seeds its own generator with 42 and never reads `extRng`.
`none` models the panic inherited from `reservoir_sampling` (it occurs
exactly when `max_points = 0` and the point set is non-empty). -/
def EvalData.from_sample (extRng : Rng) (points : Mat) (labels : Option (List Nat))
    (max_points : Nat) : Option EvalData :=
  match reservoir_sampling smallRng42 (List.range points.ncols)
      (List.replicate max_points 0) with
  | none => none
  | some (inds, n, _) =>
    some ⟨points.selectColumns (inds.take n),
      labels.map (fun l => selectLabelColumns l (inds.take n))⟩

/-- C6: `EvalData::from_sample` is deterministic: its result is a function
of the points matrix, label vector and `max_points` alone, independent of
any external random-generator state (two calls under arbitrarily
different external generator states agree bit for bit). -/
theorem from_sample_deterministic (r1 r2 : Rng) (points : Mat)
    (labels : Option (List Nat)) (max_points : Nat) :
    EvalData.from_sample r1 points labels max_points =
      EvalData.from_sample r2 points labels max_points := rfl

lemma resFill_length (src dst : List α) : (resFill src dst).length = dst.length := by
  simp only [resFill, List.length_append, List.length_take, List.length_drop]
  omega

lemma reservoir_sampling_some {rng : Rng} {src dst : List α} {d : List α} {n : Nat} {r : Rng}
    (h : reservoir_sampling rng src dst = some (d, n, r)) :
    n = min src.length dst.length ∧ d.length = dst.length := by
  simp only [reservoir_sampling] at h
  split at h
  · exact absurd h (by simp)
  · rename_i d0 r0 heq
    simp only [Option.some.injEq, Prod.mk.injEq] at h
    obtain ⟨hd, hn, hr⟩ := h
    subst hd hn
    exact ⟨rfl, by rw [resLoop_length heq, resFill_length]⟩

lemma map_getD_range (l : List α) (dflt : α) :
    (List.range l.length).map (fun i => l.getD i dflt) = l := by
  apply List.ext_getElem
  · simp
  · intro i h1 h2
    simp only [List.getElem_map, List.getElem_range]
    exact List.getD_eq_getElem l dflt h2

/-- C7: the evaluation data holds at most `max_points` columns; and when
the point set has strictly fewer columns than `max_points` (labels, if
supplied, aligned with the columns), the evaluation data equals the full
input set. -/
theorem from_sample_bounded_and_full_on_small (extRng : Rng) (points : Mat)
    (labels : Option (List Nat)) (max_points : Nat)
    (hlab : ∀ l, labels = some l → l.length = points.ncols) :
    (∀ d, EvalData.from_sample extRng points labels max_points = some d →
      d.points.ncols ≤ max_points) ∧
    (points.ncols < max_points →
      EvalData.from_sample extRng points labels max_points = some ⟨points, labels⟩) := by
  constructor
  · intro d hd
    unfold EvalData.from_sample at hd
    split at hd
    · exact absurd hd (by simp)
    · rename_i inds n r heq
      obtain ⟨hcount, hlen⟩ := reservoir_sampling_some heq
      simp only [List.length_range, List.length_replicate] at hcount hlen
      obtain rfl := Option.some_inj.mp hd
      simp only [Mat.ncols, Mat.selectColumns, List.length_map, List.length_take]
      omega
  · intro hlt
    have hshort : (List.range points.ncols).length <
        (List.replicate max_points (0 : Nat)).length := by
      rwa [List.length_range, List.length_replicate]
    unfold EvalData.from_sample
    rw [reservoir_sampling_short hshort]
    dsimp only
    rw [List.take_left]
    have hsel : points.selectColumns (List.range points.ncols) = points := by
      unfold Mat.selectColumns Mat.ncols
      rw [map_getD_range]
    have hlabels : labels.map (fun l => selectLabelColumns l (List.range points.ncols)) =
        labels := by
      cases hl : labels with
      | none => rfl
      | some l =>
        have hll := hlab l hl
        show some (selectLabelColumns l (List.range points.ncols)) = some l
        unfold selectLabelColumns
        rw [← hll, map_getD_range]
    rw [hsel, hlabels]

/-- C7 witness: the theorem applied to a concrete 1×2 matrix with aligned
labels and `max_points = 3`. -/
theorem from_sample_bounded_and_full_on_small_witness :
    EvalData.from_sample rng0 ⟨1, [[1], [2]]⟩ (some [5, 6]) 3 =
      some ⟨⟨1, [[1], [2]]⟩, some [5, 6]⟩ :=
  (from_sample_bounded_and_full_on_small rng0 ⟨1, [[1], [2]]⟩ (some [5, 6]) 3
    (by intro l h; cases h; rfl)).2 (by decide)

/-! ## `MonitoringCallback` (src/callback.rs lines 83-166)

The monitoring callback owns evaluation data, an ordered metric registry,
an ordered child-callback registry, a measurement table (a `HashMap`
modelled as an association list with unique keys), a step-start timestamp
and a verbosity flag.  Child callbacks are boxed trait objects whose
internal behaviour is opaque to the parent, so each child is modelled by
an identifier and each invocation of a child hook (and of a metric) is
recorded in an event trace; a metric is modelled by its observable effect,
a function updating the measurement table.  `Instant::now()` is modelled
by a `now` parameter supplied at each hook call. -/

/-- Read-only model parameters passed into `during_step`: the only
accessor this core needs is `n_clusters`. -/
structure ThinParams where
  n_clusters : Nat

/-- The measurement table: metric name to scalar value, keys unique. -/
abbrev Measures := List (String × Rat)

/-- A registered metric, modelled by its effect on the measurement table:
`compute(i, eval_data, params, measurements)`. -/
abbrev MetricImpl := Nat → EvalData → ThinParams → Measures → Measures

/-- The three callback lifecycle hooks. -/
inductive Hook where
  | before : Hook
  | during : Hook
  | after : Hook
deriving DecidableEq

/-- Observable events of one monitoring-callback hook invocation. -/
inductive MCEvent where
  | childHook (h : Hook) (child : Nat) (i : Nat) : MCEvent
  | metricCompute (m : Nat) (i : Nat) : MCEvent
  | insertMeasureEv (key : String) (v : Rat) : MCEvent
  | recordStart (t : Nat) : MCEvent
deriving DecidableEq

/-- State of `MonitoringCallback`. -/
structure MonitoringCallback where
  data : EvalData
  metrics : List MetricImpl
  callbacks : List Nat
  measures : Measures
  step_started : Nat
  verbose : Bool

/-- `HashMap::insert`: replace the entry with the given key, or add a new
entry when the key is absent. -/
def insertMeasure : Measures → String → Rat → Measures
  | [], key, v => [(key, v)]
  | p :: tl, key, v => if p.1 = key then (key, v) :: tl else p :: insertMeasure tl key v

/-- Embedding of `MonitoringCallback::before_step`: clears the measurement
table, forwards to each child callback's `before_step(i)` in registration
order, then records the current time as the step-start timestamp.  The
returned trace lists the child invocations followed by the
timestamp-recording action, in execution order. -/
def MonitoringCallback.before_step (mc : MonitoringCallback) (i now : Nat) :
    MonitoringCallback × List MCEvent :=
  ({ mc with measures := [], step_started := now },
   (mc.callbacks.map (fun c => MCEvent.childHook Hook.before c i)) ++
     [MCEvent.recordStart now])

/-- The metric-invocation loop of `during_step`: each registered metric,
in registration order, may update the measurement table. -/
def applyMetrics (i : Nat) (data : EvalData) (params : ThinParams) :
    List MetricImpl → Measures → Nat → Measures × List MCEvent
  | [], m, _ => (m, [])
  | f :: fs, m, idx =>
    let r := applyMetrics i data params fs (f i data params m) (idx + 1)
    (r.1, MCEvent.metricCompute idx i :: r.2)

/-- Embedding of `MonitoringCallback::during_step`: inserts
`"k" -> params.n_clusters()` (as a float) into the measurement table,
invokes each registered metric in registration order, then forwards to
each child callback's `during_step(i, params)` in registration order.
The returned trace lists the actions in execution order. -/
def MonitoringCallback.during_step (mc : MonitoringCallback) (i : Nat)
    (params : ThinParams) : MonitoringCallback × List MCEvent :=
  let m0 := insertMeasure mc.measures "k" (params.n_clusters : Rat)
  let r := applyMetrics i mc.data params mc.metrics m0 0
  ({ mc with measures := r.1 },
   MCEvent.insertMeasureEv "k" (params.n_clusters : Rat) ::
     (r.2 ++ mc.callbacks.map (fun c => MCEvent.childHook Hook.during c i)))

/-- C8: `before_step(i)` leaves the measurement table empty regardless of
its prior contents, records `now` as the step-start timestamp, and its
trace is exactly the child `before_step(i)` invocations in registration
order followed by the timestamp recording (so every child runs before the
timestamp is taken). -/
theorem before_step_clears_measures_then_children_then_timestamp
    (mc : MonitoringCallback) (i now : Nat) :
    (mc.before_step i now).1.measures = [] ∧
    (mc.before_step i now).1.step_started = now ∧
    (mc.before_step i now).2 =
      (mc.callbacks.map (fun c => MCEvent.childHook Hook.before c i)) ++
        [MCEvent.recordStart now] :=
  ⟨rfl, rfl, rfl⟩

lemma lookup_insertMeasure (m : Measures) (key : String) (v : Rat) :
    (insertMeasure m key v).lookup key = some v := by
  induction m with
  | nil => simp [insertMeasure, List.lookup]
  | cons p tl ih =>
    by_cases hp : p.1 = key
    · simp [insertMeasure, hp, List.lookup]
    · simp only [insertMeasure, hp, if_false, List.lookup]
      have hne : (key == p.1) = false := by
        simp [Ne.symm hp]
      rw [hne]
      exact ih

/-- C9: with no registered metrics, after `during_step(i, params)` the
measurement table maps `"k"` to `params.n_clusters()` converted to a
float, and the trace shows the `"k"` insertion strictly before the child
`during_step(i, params)` invocations, which occur in registration order
(the metric loop is empty). -/
theorem during_step_inserts_k_before_children (mc : MonitoringCallback) (i : Nat)
    (params : ThinParams) (hm : mc.metrics = []) :
    ((mc.during_step i params).1.measures).lookup "k" =
      some (params.n_clusters : Rat) ∧
    (mc.during_step i params).2 =
      MCEvent.insertMeasureEv "k" (params.n_clusters : Rat) ::
        mc.callbacks.map (fun c => MCEvent.childHook Hook.during c i) := by
  constructor
  · show (applyMetrics i mc.data params mc.metrics
      (insertMeasure mc.measures "k" (params.n_clusters : Rat)) 0).1.lookup "k" =
        some (params.n_clusters : Rat)
    rw [hm]
    exact lookup_insertMeasure _ _ _
  · show MCEvent.insertMeasureEv "k" (params.n_clusters : Rat) ::
      ((applyMetrics i mc.data params mc.metrics
          (insertMeasure mc.measures "k" (params.n_clusters : Rat)) 0).2 ++
        mc.callbacks.map (fun c => MCEvent.childHook Hook.during c i)) = _
    rw [hm]
    rfl

/-- C9 witness: the theorem applied to a concrete monitoring callback with
no metrics, two children and a non-empty prior table. -/
theorem during_step_inserts_k_before_children_witness :
    (((⟨⟨⟨0, []⟩, none⟩, [], [0, 1], [("old", 3)], 0, false⟩ :
        MonitoringCallback).during_step 7 ⟨4⟩).1.measures).lookup "k" =
      some ((4 : Nat) : Rat) ∧
    ((⟨⟨⟨0, []⟩, none⟩, [], [0, 1], [("old", 3)], 0, false⟩ :
        MonitoringCallback).during_step 7 ⟨4⟩).2 =
      [MCEvent.insertMeasureEv "k" ((4 : Nat) : Rat),
       MCEvent.childHook Hook.during 0 7, MCEvent.childHook Hook.during 1 7] :=
  during_step_inserts_k_before_children
    ⟨⟨⟨0, []⟩, none⟩, [], [0, 1], [("old", 3)], 0, false⟩ 7 ⟨4⟩ rfl
